import Mathlib

/-!
Shallow embedding of the transactional key-value store
(`kvs/server/main.go` and `kvs/client/main.go`).

Go maps (`sync.Map`, `map[...]...`) are modelled as functions into `Option`;
`uint64` transaction ids are modelled as `Nat` (no arithmetic is performed on
them, so no overflow is involved); Go errors are `Option String` carrying the
error message, `none` meaning the nil error.
-/

/-- Pointwise update of a map modelled as a function into `Option`.
`upd m k (some v)` is Go `m.Store(k, v)`; `upd m k none` is `m.Delete(k)`. -/
def upd {κ α : Type} [DecidableEq κ] (m : κ → Option α) (k : κ) (v : Option α) :
    κ → Option α :=
  fun q => if q = k then v else m q

/-- An entry of the server's per-transaction operation log
(`Operation` in `kvs/server/main.go`): `OpType` is `"GET"` or `"PUT"`,
`Value` is empty for GET operations. -/
structure Operation where
  OpType : String
  Key : String
  Value : String
deriving DecidableEq

/-- Lock holders for a single key (`LockInfo` in `kvs/server/main.go`):
the set of transactions holding read locks, and the transaction holding
the write lock (`none` if none). -/
structure LockInfo where
  readHolders : Finset Nat
  writeHolder : Option Nat
deriving DecidableEq

/-- `NewLockInfo` from `kvs/server/main.go`: empty readers, no writer. -/
def NewLockInfo : LockInfo :=
  { readHolders := ∅, writeHolder := none }

/-- Server statistics counters (`Stats` in `kvs/server/main.go`). -/
structure Stats where
  puts : Nat
  gets : Nat
  commits : Nat
  aborts : Nat
deriving DecidableEq

/-- The server state (`KVService` in `kvs/server/main.go`): the committed
key-value store `mp`, the per-key lock table `locks`, and the transaction
table `transactions` mapping a txid to its recorded operations. -/
structure KVService where
  mp : String → Option String
  locks : String → Option LockInfo
  transactions : Nat → Option (List Operation)
  stats : Stats

/-- Core of `acquireReadLock` (`kvs/server/main.go` lines 72-90), acting on
the `LockInfo` of the requested key: returns the updated lock state and the
error (`none` on success). -/
def acquireReadLockInfo (lockInfo : LockInfo) (txid : Nat) : LockInfo × Option String :=
  if lockInfo.writeHolder ≠ none ∧ lockInfo.writeHolder ≠ some txid then
    (lockInfo, some "Cannot acquire Read Lock, key is currently write locked")
  else if lockInfo.writeHolder ≠ none ∧ lockInfo.writeHolder = some txid then
    (lockInfo, none)
  else
    ({ lockInfo with readHolders := insert txid lockInfo.readHolders }, none)

/-- Core of `acquireWriteLock` (`kvs/server/main.go` lines 93-122), acting on
the `LockInfo` of the requested key. -/
def acquireWriteLockInfo (lockInfo : LockInfo) (txid : Nat) : LockInfo × Option String :=
  if lockInfo.writeHolder ≠ none ∧ lockInfo.writeHolder = some txid then
    (lockInfo, none)
  else if lockInfo.writeHolder ≠ none then
    (lockInfo, some "Cannot acquire Write Lock, key is currently write locked")
  else if lockInfo.readHolders.card > 1 then
    (lockInfo, some "Cannot acquire Write Lock, key has multiple read locks")
  else if lockInfo.readHolders.card = 1 ∧ txid ∉ lockInfo.readHolders then
    (lockInfo, some "Cannot acquire Write Lock, key is read locked by another transaction")
  else
    ({ readHolders := lockInfo.readHolders.erase txid, writeHolder := some txid }, none)

/-- Per-key effect of `releaseLocks` (`kvs/server/main.go` lines 128-139):
remove `txid` from the read holders and clear the write holder if it is
`txid`. -/
def releaseLockInfo (lockInfo : LockInfo) (txid : Nat) : LockInfo :=
  { readHolders := lockInfo.readHolders.erase txid,
    writeHolder :=
      if lockInfo.writeHolder ≠ none ∧ lockInfo.writeHolder = some txid then none
      else lockInfo.writeHolder }

/-- `acquireReadLock` lifted to the service state: `LoadOrStore` the key's
`LockInfo` (creating an empty one when absent), run the core logic, store the
resulting lock state back. -/
def KVService.acquireReadLock (kv : KVService) (key : String) (txid : Nat) :
    KVService × Option String :=
  let lockInfo := (kv.locks key).getD NewLockInfo
  let r := acquireReadLockInfo lockInfo txid
  ({ kv with locks := upd kv.locks key (some r.1) }, r.2)

/-- `acquireWriteLock` lifted to the service state. -/
def KVService.acquireWriteLock (kv : KVService) (key : String) (txid : Nat) :
    KVService × Option String :=
  let lockInfo := (kv.locks key).getD NewLockInfo
  let r := acquireWriteLockInfo lockInfo txid
  ({ kv with locks := upd kv.locks key (some r.1) }, r.2)

/-- One iteration of the `releaseLocks` loop body (`kvs/server/main.go`
lines 129-139): if the key of the operation has a lock entry, release
`txid`'s share of it. -/
def releaseStep (txid : Nat) (lks : String → Option LockInfo) (op : Operation) :
    String → Option LockInfo :=
  match lks op.Key with
  | some lockInfo => upd lks op.Key (some (releaseLockInfo lockInfo txid))
  | none => lks

/-- The loop of `releaseLocks` (`kvs/server/main.go` lines 126-141): for every
operation recorded by the transaction, release `txid`'s share of the lock of
the operation's key. -/
def releaseLocksLoop (lks : String → Option LockInfo) (txid : Nat)
    (operations : List Operation) : String → Option LockInfo :=
  operations.foldl (releaseStep txid) lks

/-- `releaseLocks` (`kvs/server/main.go` lines 124-153): release every lock
recorded in the transaction's operation log, then delete the transaction-table
entry. -/
def KVService.releaseLocks (kv : KVService) (txid : Nat) : KVService :=
  let kv :=
    match kv.transactions txid with
    | some operations => { kv with locks := releaseLocksLoop kv.locks txid operations }
    | none => kv
  { kv with transactions := upd kv.transactions txid none }

/-- `GetRequest` from `kvs/proto.go` (the `ClientID` field is unused by the
server and omitted). -/
structure GetRequest where
  Key : String
  Txid : Nat

/-- Result of the server `Get` handler: post state, returned error, and
`response.Value` (left at its zero value `""` on error). -/
structure GetOut where
  kv : KVService
  err : Option String
  value : String

/-- `PutRequest` from `kvs/proto.go`. -/
structure PutRequest where
  Key : String
  Value : String
  Txid : Nat

/-- Result of the server `Put` handler. -/
structure PutOut where
  kv : KVService
  err : Option String

/-- `CommitRequest` from `kvs/proto.go` plus the `Lead` flag used by the
server's `Commit`. -/
structure CommitRequest where
  Txid : Nat
  Lead : Bool

/-- `AbortRequest` from `kvs/proto.go`. -/
structure AbortRequest where
  Txid : Nat

/-- The entry-creation step shared by `Get` and `Put` (`kvs/server/main.go`
lines 159-161 and 195-197): if the txid has no transaction-table entry yet,
store an empty operation list for it. -/
def ensureTxn (kv : KVService) (txid : Nat) : KVService :=
  if kv.transactions txid = none then
    { kv with transactions := upd kv.transactions txid (some []) }
  else kv

/-- Server `Get` handler (`kvs/server/main.go` lines 155-189). -/
def serverGet (kv : KVService) (request : GetRequest) : GetOut :=
  let kv := ensureTxn kv request.Txid
  let ar := kv.acquireReadLock request.Key request.Txid
  match ar.2 with
  | some e =>
    let kv := ar.1.releaseLocks request.Txid
    ⟨{ kv with stats := { kv.stats with aborts := kv.stats.aborts + 1 } }, some e, ""⟩
  | none =>
    let kv := ar.1
    let operations := (kv.transactions request.Txid).getD []
    let operations := operations ++ [{ OpType := "GET", Key := request.Key, Value := "" }]
    let kv := { kv with transactions := upd kv.transactions request.Txid (some operations) }
    let value := (kv.mp request.Key).getD ""
    ⟨{ kv with stats := { kv.stats with gets := kv.stats.gets + 1 } }, none, value⟩

/-- Server `Put` handler (`kvs/server/main.go` lines 191-219): buffers the PUT
in the operation log, does not touch `mp`. -/
def serverPut (kv : KVService) (request : PutRequest) : PutOut :=
  let kv := ensureTxn kv request.Txid
  let ar := kv.acquireWriteLock request.Key request.Txid
  match ar.2 with
  | some e =>
    let kv := ar.1.releaseLocks request.Txid
    ⟨{ kv with stats := { kv.stats with aborts := kv.stats.aborts + 1 } }, some e⟩
  | none =>
    let kv := ar.1
    let operations := (kv.transactions request.Txid).getD []
    let operations := operations ++ [{ OpType := "PUT", Key := request.Key, Value := request.Value }]
    let kv := { kv with transactions := upd kv.transactions request.Txid (some operations) }
    ⟨{ kv with stats := { kv.stats with puts := kv.stats.puts + 1 } }, none⟩

/-- The commit loop applying buffered PUT operations to the store
(`kvs/server/main.go` lines 228-232). -/
def applyPuts (mp : String → Option String) (ops : List Operation) :
    String → Option String :=
  ops.foldl (fun m op => if op.OpType = "PUT" then upd m op.Key (some op.Value) else m) mp

/-- Server `Commit` handler (`kvs/server/main.go` lines 222-243): apply the
transaction's buffered PUTs in order, count the commit when `Lead`, release
locks, and always return the nil error. -/
def serverCommit (kv : KVService) (request : CommitRequest) : KVService × Option String :=
  let kv :=
    match kv.transactions request.Txid with
    | some ops =>
      let kv := { kv with mp := applyPuts kv.mp ops }
      if request.Lead then
        { kv with stats := { kv.stats with commits := kv.stats.commits + 1 } }
      else kv
    | none => kv
  (kv.releaseLocks request.Txid, none)

/-- Server `Abort` handler (`kvs/server/main.go` lines 246-253): release locks,
count an abort, return the nil error. -/
def serverAbort (kv : KVService) (request : AbortRequest) : KVService × Option String :=
  let kv := kv.releaseLocks request.Txid
  ({ kv with stats := { kv.stats with aborts := kv.stats.aborts + 1 } }, none)

/-- `txid` holds a lock (read or write) in the given per-key lock entry. -/
def holdsLock (o : Option LockInfo) (txid : Nat) : Prop :=
  ∃ l, o = some l ∧ (txid ∈ l.readHolders ∨ l.writeHolder = some txid)

/-- The keys appearing in `txid`'s recorded operation log. -/
def opKeys (kv : KVService) (txid : Nat) : List String :=
  ((kv.transactions txid).getD []).map Operation.Key

/-- The per-key lock invariant: when the write lock is held by `w`, the read
holders contain no transaction other than `w`, and `w` itself does not also
appear as a reader (so in fact the reader set is empty). At most one
transaction can hold the write lock because `writeHolder` is a single
optional value. -/
def LockInv (l : LockInfo) : Prop :=
  ∀ w, l.writeHolder = some w → (∀ r ∈ l.readHolders, r = w) ∧ w ∉ l.readHolders

/-- The lock invariant for every key of the service. -/
def KVLockInv (kv : KVService) : Prop :=
  ∀ key l, kv.locks key = some l → LockInv l

/-- The value of the last PUT on key `k` in the operation list, if any. -/
def lastPut (ops : List Operation) (k : String) : Option String :=
  ops.foldl (fun acc op => if op.OpType = "PUT" ∧ op.Key = k then some op.Value else acc) none

/-- Go `strings.Contains`: `sub` occurs as a contiguous substring of `s`. -/
def strContains (s sub : String) : Bool :=
  s.toList.tails.any (fun t => sub.toList.isPrefixOf t)

/-- An empty server state, used to instantiate theorems at concrete inputs. -/
def kv0 : KVService :=
  { mp := fun _ => none
    locks := fun _ => none
    transactions := fun _ => none
    stats := ⟨0, 0, 0, 0⟩ }

/-- The client transaction session (`Txn` in `kvs/client/main.go`). Server
handles are modelled as natural-number identities; `id` is a pointer in Go,
so `none` models the nil pointer ("no active transaction"). -/
structure Txn where
  allServers : List Nat
  usedServers : Finset Nat
  id : Option Nat
  writeSet : String → Option String

/-- Outcome of a client `Txn.Get` / `Txn.Put` call, carrying the Go error
message (or the returned value on success). -/
inductive TxnResult where
  | notBegun (msg : String)
  | ok (value : String)
  | lockConflict (msg : String)
  | fatal (msg : String)
deriving DecidableEq

/-- Observable result of one client `Txn.Get`/`Txn.Put` call: the updated
session, the outcome, whether a server RPC was issued, and the set of servers
an `Abort` RPC was sent to. -/
structure ClientCallOut where
  txn : Txn
  result : TxnResult
  rpcIssued : Bool
  abortedTo : Finset Nat

/-- `Txn.Begin` (`kvs/client/main.go` lines 71-78). The value produced by
`randGen.Uint64()` is passed in as `r`; the code stores it unconditionally. -/
def Txn.Begin (txn : Txn) (availableServers : List Nat) (r : Nat) : Txn :=
  { txn with
    allServers := availableServers
    id := some r
    usedServers := ∅
    writeSet := fun _ => none }

/-- `Txn.Get` (`kvs/client/main.go` lines 126-149). The sharded server chosen
by `getServer` and the outcome of the `KVService.Get` RPC are oracle
parameters: `rpc = (error, value)` with `none` for the nil error. On a
fatal error the code calls `txn.Abort()`, which sends `Abort` to every used
server. -/
def Txn.clientGet (txn : Txn) (key : String) (server : Nat)
    (rpc : Option String × String) : ClientCallOut :=
  match txn.id with
  | none => ⟨txn, .notBegun "cannot call Get on a transaction that has not begun", false, ∅⟩
  | some _ =>
    match txn.writeSet key with
    | some cachedVal => ⟨txn, .ok cachedVal, false, ∅⟩
    | none =>
      let txn := { txn with usedServers := insert server txn.usedServers }
      match rpc.1 with
      | some e =>
        if strContains e "Cannot acquire" || strContains e "Abort:" then
          ⟨txn, .lockConflict ("lock conflict: " ++ e), true, ∅⟩
        else
          ⟨txn, .fatal ("server-side error raised: " ++ e), true, txn.usedServers⟩
      | none => ⟨txn, .ok rpc.2, true, ∅⟩

/-- `Txn.Put` (`kvs/client/main.go` lines 151-168). The writeSet cache is
updated only after the server accepted the Put. -/
def Txn.clientPut (txn : Txn) (key value : String) (server : Nat)
    (rpc : Option String) : ClientCallOut :=
  match txn.id with
  | none => ⟨txn, .notBegun "cannot call Put on a transaction that has not begun", false, ∅⟩
  | some _ =>
    let txn := { txn with usedServers := insert server txn.usedServers }
    match rpc with
    | some e =>
      if strContains e "Cannot acquire" || strContains e "Abort:" then
        ⟨txn, .lockConflict ("lock conflict: " ++ e), true, ∅⟩
      else
        ⟨txn, .fatal ("server-side error raised: " ++ e), true, txn.usedServers⟩
    | none =>
      ⟨{ txn with writeSet := upd txn.writeSet key (some value) }, .ok value, true, ∅⟩

/-- An empty client session, used to instantiate theorems at concrete inputs. -/
def txn0 : Txn :=
  { allServers := [], usedServers := ∅, id := none, writeSet := fun _ => none }

/-- The transfer loop's base delay in milliseconds
(`baseDelay` in `performTransfer`, `kvs/client/main.go` line 256). -/
def transferBaseDelay : Nat := 20

/-- Backoff before retry `retry` of the transfer loop, in milliseconds
(`kvs/client/main.go` lines 296-299): `20·2^retry`, capped at 2 seconds. -/
def transferBackoffMs (retry : Nat) : Nat :=
  let backoffTime := transferBaseDelay * 2 ^ retry
  if backoffTime > 2000 then 2000 else backoffTime

/-- Backoff before retry `retry` of the balance-check loop, in milliseconds
(`checkTotalBalance`, `kvs/client/main.go` line 409): `50·2^retry`, with no
cap. -/
def balanceBackoffMs (retry : Nat) : Nat :=
  50 * 2 ^ retry

/-- Total sleep of the transfer loop: backoff plus the drawn jitter
(`time.Sleep(backoffTime + jitter)`), where the code draws
`jitter = randGen.Intn(backoffTime / 2)`. -/
def transferSleepMs (retry jitter : Nat) : Nat :=
  transferBackoffMs retry + jitter

/-- Total sleep of the balance-check loop: backoff plus the drawn jitter. -/
def balanceSleepMs (retry jitter : Nat) : Nat :=
  balanceBackoffMs retry + jitter

/-- A server state whose key `"k"` is read-locked by transaction 5 alone,
used to instantiate theorems at a concrete lock-upgrade input. -/
def kvReadLocked : KVService :=
  { kv0 with locks := fun k => if k = "k" then some ⟨{5}, none⟩ else none }

/-- A server state whose key `"k"` is write-locked by transaction 2,
used to instantiate theorems at a concrete lock-conflict input. -/
def kvWriteLocked : KVService :=
  { kv0 with locks := fun k => if k = "k" then some ⟨∅, some 2⟩ else none }

/-- A server state in which transaction 7 has recorded two PUTs to `"a"` and
a GET of `"b"`, used to instantiate the commit theorem. -/
def kvLogged : KVService :=
  { kv0 with transactions := fun t =>
      if t = 7 then some [⟨"PUT", "a", "1"⟩, ⟨"PUT", "a", "2"⟩, ⟨"GET", "b", ""⟩] else none }

/-- A begun client session (id 7), used to instantiate client theorems. -/
def txn1 : Txn :=
  { allServers := [1], usedServers := ∅, id := some 7, writeSet := fun _ => none }

/-! ### Helper lemmas about map update and lock release -/

theorem upd_self {κ α : Type} [DecidableEq κ] (m : κ → Option α) (k : κ) (v : Option α) :
    upd m k v k = v := by
  simp [upd]

theorem upd_other {κ α : Type} [DecidableEq κ] (m : κ → Option α) (k : κ) (v : Option α)
    {q : κ} (h : q ≠ k) : upd m k v q = m q := by
  simp [upd, h]

theorem holdsLock_none (txid : Nat) : ¬ holdsLock none txid := by
  rintro ⟨l, hl, -⟩
  exact Option.noConfusion hl

theorem releaseLockInfo_not_holds (l : LockInfo) (t : Nat) :
    ¬ holdsLock (some (releaseLockInfo l t)) t := by
  rintro ⟨l', hl', h⟩
  rw [Option.some.injEq] at hl'
  subst hl'
  rcases h with hmem | hw
  · simp [releaseLockInfo, Finset.mem_erase] at hmem
  · simp only [releaseLockInfo] at hw
    split at hw
    · exact Option.noConfusion hw
    · rename_i hcond
      exact hcond ⟨by simp [hw], hw⟩

theorem releaseStep_other (txid : Nat) (lks : String → Option LockInfo) (op : Operation)
    {k : String} (h : k ≠ op.Key) : releaseStep txid lks op k = lks k := by
  unfold releaseStep
  cases hh : lks op.Key with
  | none => rfl
  | some li => exact upd_other lks op.Key _ h

theorem releaseStep_released (txid : Nat) (lks : String → Option LockInfo) (op : Operation) :
    ¬ holdsLock (releaseStep txid lks op op.Key) txid := by
  unfold releaseStep
  cases hh : lks op.Key with
  | none =>
    show ¬ holdsLock (lks op.Key) txid
    rw [hh]
    exact holdsLock_none txid
  | some li =>
    show ¬ holdsLock (upd lks op.Key (some (releaseLockInfo li txid)) op.Key) txid
    rw [upd_self]
    exact releaseLockInfo_not_holds li txid

theorem releaseStep_not_holds (txid : Nat) (lks : String → Option LockInfo) (op : Operation)
    (k : String) (h : ¬ holdsLock (lks k) txid) :
    ¬ holdsLock (releaseStep txid lks op k) txid := by
  by_cases hk : k = op.Key
  · subst hk
    exact releaseStep_released txid lks op
  · rw [releaseStep_other txid lks op hk]
    exact h

theorem releaseLocksLoop_not_holds (txid : Nat) :
    ∀ (operations : List Operation) (lks : String → Option LockInfo) (k : String),
      (k ∈ operations.map Operation.Key ∨ ¬ holdsLock (lks k) txid) →
      ¬ holdsLock (releaseLocksLoop lks txid operations k) txid := by
  intro operations
  induction operations with
  | nil =>
    intro lks k h
    rcases h with h | h
    · simp at h
    · exact h
  | cons op rest ih =>
    intro lks k h
    have hstep : releaseLocksLoop lks txid (op :: rest)
        = releaseLocksLoop (releaseStep txid lks op) txid rest := rfl
    rw [hstep]
    apply ih
    rcases h with h | h
    · rw [List.map_cons, List.mem_cons] at h
      rcases h with h | h
      · subst h
        exact Or.inr (releaseStep_released txid lks op)
      · exact Or.inl h
    · exact Or.inr (releaseStep_not_holds txid lks op k h)

theorem releaseLocksLoop_frame (txid : Nat) :
    ∀ (operations : List Operation) (lks : String → Option LockInfo) (k : String),
      k ∉ operations.map Operation.Key →
      releaseLocksLoop lks txid operations k = lks k := by
  intro operations
  induction operations with
  | nil => intro lks k _; rfl
  | cons op rest ih =>
    intro lks k hk
    rw [List.map_cons, List.mem_cons] at hk
    push_neg at hk
    obtain ⟨hk1, hk2⟩ := hk
    have hstep : releaseLocksLoop lks txid (op :: rest)
        = releaseLocksLoop (releaseStep txid lks op) txid rest := rfl
    rw [hstep, ih _ k hk2]
    exact releaseStep_other txid lks op hk1

theorem releaseLocks_transactions (kv : KVService) (txid : Nat) :
    (kv.releaseLocks txid).transactions txid = none := by
  unfold KVService.releaseLocks
  cases h : kv.transactions txid <;> simp [h, upd_self]

theorem releaseLocks_mp (kv : KVService) (txid : Nat) :
    (kv.releaseLocks txid).mp = kv.mp := by
  unfold KVService.releaseLocks
  cases h : kv.transactions txid <;> simp [h]

theorem releaseLocks_stats (kv : KVService) (txid : Nat) :
    (kv.releaseLocks txid).stats = kv.stats := by
  unfold KVService.releaseLocks
  cases h : kv.transactions txid <;> simp [h]

theorem releaseLocks_not_holds (kv : KVService) (txid : Nat) (k : String)
    (h : holdsLock (kv.locks k) txid → k ∈ opKeys kv txid) :
    ¬ holdsLock ((kv.releaseLocks txid).locks k) txid := by
  unfold KVService.releaseLocks
  cases ht : kv.transactions txid with
  | none =>
    simp only [ht]
    intro hc
    have := h hc
    simp [opKeys, ht] at this
  | some ops =>
    simp only [ht]
    apply releaseLocksLoop_not_holds
    by_cases hh : holdsLock (kv.locks k) txid
    · left
      have := h hh
      simpa [opKeys, ht] using this
    · exact Or.inr hh

/-! ### Helper lemmas about the per-key lock invariant -/

theorem LockInv_new : LockInv NewLockInfo := by
  intro w hw
  simp [NewLockInfo] at hw

theorem acquireReadLockInfo_inv (l : LockInfo) (t : Nat) (h : LockInv l) :
    LockInv (acquireReadLockInfo l t).1 := by
  unfold acquireReadLockInfo
  split
  · exact h
  split
  · exact h
  rename_i h1 h2
  have hnone : l.writeHolder = none := by
    cases hwo : l.writeHolder with
    | none => rfl
    | some x =>
      exfalso
      by_cases hx : x = t
      · subst hx
        exact h2 ⟨by simp [hwo], hwo⟩
      · exact h1 ⟨by simp [hwo], by simp [hwo, hx]⟩
  intro w hw
  have hw' : l.writeHolder = some w := hw
  rw [hnone] at hw'
  exact Option.noConfusion hw'

theorem acquireWriteLockInfo_inv (l : LockInfo) (t : Nat) (h : LockInv l) :
    LockInv (acquireWriteLockInfo l t).1 := by
  unfold acquireWriteLockInfo
  split
  · exact h
  split
  · exact h
  split
  · exact h
  split
  · exact h
  rename_i h1 h2 h3 h4
  have herase : l.readHolders.erase t = ∅ := by
    have hcard : l.readHolders.card ≤ 1 := by omega
    rcases Nat.lt_or_ge l.readHolders.card 1 with hc | hc
    · have h0 : l.readHolders.card = 0 := by omega
      rw [Finset.card_eq_zero.mp h0, Finset.erase_empty]
    · have h1c : l.readHolders.card = 1 := by omega
      have hmem : t ∈ l.readHolders := by
        by_contra hmem
        exact h4 ⟨h1c, hmem⟩
      obtain ⟨a, ha⟩ := Finset.card_eq_one.mp h1c
      have hat : a = t := by
        rw [ha, Finset.mem_singleton] at hmem
        exact hmem.symm
      subst hat
      rw [ha]
      simp
  intro w hw
  have hw' : some t = some w := hw
  rw [Option.some.injEq] at hw'
  subst hw'
  show (∀ r ∈ l.readHolders.erase t, r = t) ∧ t ∉ l.readHolders.erase t
  rw [herase]
  exact ⟨fun r hr => absurd hr (Finset.not_mem_empty r), Finset.not_mem_empty t⟩

theorem releaseLockInfo_inv (l : LockInfo) (t : Nat) (h : LockInv l) :
    LockInv (releaseLockInfo l t) := by
  intro w hw
  have hw' : (if l.writeHolder ≠ none ∧ l.writeHolder = some t then none
      else l.writeHolder) = some w := hw
  split at hw'
  · exact Option.noConfusion hw'
  obtain ⟨ha, hb⟩ := h w hw'
  constructor
  · intro r hr
    exact ha r (Finset.mem_of_mem_erase hr)
  · intro hmem
    exact hb (Finset.mem_of_mem_erase hmem)

theorem releaseStep_inv (txid : Nat) (lks : String → Option LockInfo) (op : Operation)
    (h : ∀ k l, lks k = some l → LockInv l) :
    ∀ k l, releaseStep txid lks op k = some l → LockInv l := by
  intro k l hl
  unfold releaseStep at hl
  cases hh : lks op.Key with
  | none =>
    rw [hh] at hl
    exact h k l hl
  | some li =>
    rw [hh] at hl
    have hl' : upd lks op.Key (some (releaseLockInfo li txid)) k = some l := hl
    by_cases hk : k = op.Key
    · subst hk
      rw [upd_self] at hl'
      rw [Option.some.injEq] at hl'
      subst hl'
      exact releaseLockInfo_inv li txid (h op.Key li hh)
    · rw [upd_other lks op.Key _ hk] at hl'
      exact h k l hl'

theorem releaseLocksLoop_inv (txid : Nat) :
    ∀ (operations : List Operation) (lks : String → Option LockInfo),
      (∀ k l, lks k = some l → LockInv l) →
      ∀ k l, releaseLocksLoop lks txid operations k = some l → LockInv l := by
  intro operations
  induction operations with
  | nil => intro lks h; exact h
  | cons op rest ih =>
    intro lks h
    have hstep : releaseLocksLoop lks txid (op :: rest)
        = releaseLocksLoop (releaseStep txid lks op) txid rest := rfl
    rw [hstep]
    exact ih _ (releaseStep_inv txid lks op h)

/-! ### Helper lemmas about commit-time write application -/

theorem lastPut_acc (k : String) :
    ∀ (ops : List Operation) (a : Option String),
      ops.foldl (fun acc op => if op.OpType = "PUT" ∧ op.Key = k then some op.Value else acc) a
        = (lastPut ops k).elim a some := by
  intro ops
  induction ops with
  | nil => intro a; simp [lastPut]
  | cons op rest ih =>
    intro a
    rw [List.foldl_cons]
    rw [ih]
    conv_rhs => rw [lastPut, List.foldl_cons]
    rw [show rest.foldl
          (fun acc op => if op.OpType = "PUT" ∧ op.Key = k then some op.Value else acc)
          (if op.OpType = "PUT" ∧ op.Key = k then some op.Value else none)
        = (lastPut rest k).elim
            (if op.OpType = "PUT" ∧ op.Key = k then some op.Value else none) some from ih _]
    cases hlp : lastPut rest k with
    | some v => rfl
    | none =>
      by_cases hc : op.OpType = "PUT" ∧ op.Key = k
      · simp [hc]
      · simp [hc]

theorem lastPut_cons (op : Operation) (rest : List Operation) (k : String) :
    lastPut (op :: rest) k =
      (lastPut rest k).elim
        (if op.OpType = "PUT" ∧ op.Key = k then some op.Value else none) some := by
  rw [lastPut, List.foldl_cons]
  exact lastPut_acc k rest _

theorem applyPuts_eq (k : String) :
    ∀ (ops : List Operation) (mp : String → Option String),
      applyPuts mp ops k = (lastPut ops k).elim (mp k) some := by
  intro ops
  induction ops with
  | nil => intro mp; simp [applyPuts, lastPut]
  | cons op rest ih =>
    intro mp
    rw [applyPuts, List.foldl_cons]
    rw [show rest.foldl
          (fun m op => if op.OpType = "PUT" then upd m op.Key (some op.Value) else m)
          (if op.OpType = "PUT" then upd mp op.Key (some op.Value) else mp)
        = applyPuts (if op.OpType = "PUT" then upd mp op.Key (some op.Value) else mp) rest
          from rfl]
    rw [ih]
    rw [lastPut_cons]
    cases hlp : lastPut rest k with
    | some v => rfl
    | none =>
      show (if op.OpType = "PUT" then upd mp op.Key (some op.Value) else mp) k
          = ((if op.OpType = "PUT" ∧ op.Key = k then some op.Value else none).elim (mp k) some)
      by_cases hp : op.OpType = "PUT"
      · by_cases hk : op.Key = k
        · rw [if_pos hp, if_pos ⟨hp, hk⟩]
          subst hk
          rw [upd_self]
          rfl
        · rw [if_pos hp, if_neg (by tauto)]
          rw [upd_other mp op.Key _ (fun h => hk h.symm)]
          rfl
      · rw [if_neg hp, if_neg (by tauto)]
        rfl

/-! ### Case-analysis lemmas for the lock acquire operations -/

theorem acquireReadLockInfo_err (l : LockInfo) (t : Nat) (e : String)
    (h : (acquireReadLockInfo l t).2 = some e) :
    e = "Cannot acquire Read Lock, key is currently write locked" ∧
    (acquireReadLockInfo l t).1 = l ∧
    l.writeHolder ≠ none ∧ l.writeHolder ≠ some t := by
  unfold acquireReadLockInfo at *
  split at h
  · rename_i hc
    rw [Option.some.injEq] at h
    refine ⟨h.symm, ?_, hc.1, hc.2⟩
    rw [if_pos hc]
  · split at h
    · exact Option.noConfusion h
    · exact Option.noConfusion h

theorem acquireReadLockInfo_ok_iff (l : LockInfo) (t : Nat) :
    (acquireReadLockInfo l t).2 = none ↔
      ¬(l.writeHolder ≠ none ∧ l.writeHolder ≠ some t) := by
  unfold acquireReadLockInfo
  split
  · rename_i hc
    simp [hc]
  · rename_i hc
    split <;> simp [hc]

theorem subset_singleton_conds (s : Finset Nat) (t : Nat) :
    s ⊆ {t} ↔ ¬(s.card > 1) ∧ ¬(s.card = 1 ∧ t ∉ s) := by
  constructor
  · intro hsub
    rcases Finset.subset_singleton_iff.mp hsub with h0 | h1
    · subst h0
      simp
    · rw [h1]
      simp
  · rintro ⟨h1, h2⟩
    have hcard : s.card ≤ 1 := by omega
    rcases Nat.lt_or_ge s.card 1 with hc | hc
    · have h0 : s.card = 0 := by omega
      rw [Finset.card_eq_zero.mp h0]
      exact Finset.empty_subset _
    · have h1c : s.card = 1 := by omega
      have hmem : t ∈ s := by
        by_contra hmem
        exact h2 ⟨h1c, hmem⟩
      obtain ⟨a, ha⟩ := Finset.card_eq_one.mp h1c
      subst ha
      rw [Finset.mem_singleton] at hmem
      subst hmem
      exact Finset.Subset.refl _

theorem acquireWriteLockInfo_spec (l : LockInfo) (txid : Nat) :
    ((acquireWriteLockInfo l txid).2 = none ↔
      l.writeHolder = some txid ∨ (l.writeHolder = none ∧ l.readHolders ⊆ {txid})) ∧
    (l.writeHolder = none → l.readHolders ⊆ {txid} →
      (acquireWriteLockInfo l txid).1
        = ⟨l.readHolders.erase txid, some txid⟩) ∧
    (l.writeHolder = some txid → (acquireWriteLockInfo l txid).1 = l) ∧
    ((acquireWriteLockInfo l txid).2 ≠ none → (acquireWriteLockInfo l txid).1 = l) := by
  cases hwo : l.writeHolder with
  | some w =>
    by_cases hw : w = txid
    · subst hw
      have hcond : l.writeHolder ≠ none ∧ l.writeHolder = some w := ⟨by simp [hwo], hwo⟩
      unfold acquireWriteLockInfo
      rw [if_pos hcond]
      exact ⟨by simp, fun hn => absurd hn (by simp), fun _ => rfl, by simp⟩
    · have hcond1 : ¬(l.writeHolder ≠ none ∧ l.writeHolder = some txid) := by
        rw [hwo]
        intro hc
        rw [Option.some.injEq] at hc
        exact hw hc.2
      have hcond2 : l.writeHolder ≠ none := by simp [hwo]
      unfold acquireWriteLockInfo
      rw [if_neg hcond1, if_pos hcond2]
      refine ⟨by simp [hw], ?_, ?_, fun _ => rfl⟩
      · intro hn
        exact absurd hn (by simp)
      · intro hs
        exact absurd (Option.some.injEq w txid ▸ hs) hw
  | none =>
    have hcond1 : ¬(l.writeHolder ≠ none ∧ l.writeHolder = some txid) := by
      rw [hwo]; simp
    have hcond2 : ¬(l.writeHolder ≠ none) := by rw [hwo]; simp
    unfold acquireWriteLockInfo
    rw [if_neg hcond1, if_neg hcond2]
    by_cases hc3 : l.readHolders.card > 1
    · rw [if_pos hc3]
      refine ⟨?_, ?_, ?_, fun _ => rfl⟩
      · constructor
        · intro h
          exact absurd h (by simp)
        · rintro (h | ⟨-, hsub⟩)
          · exact Option.noConfusion h
          · exact absurd hc3 ((subset_singleton_conds _ _).mp hsub).1
      · intro _ hsub
        exact absurd hc3 ((subset_singleton_conds _ _).mp hsub).1
      · intro hs
        exact Option.noConfusion hs
    · rw [if_neg hc3]
      by_cases hc4 : l.readHolders.card = 1 ∧ txid ∉ l.readHolders
      · rw [if_pos hc4]
        refine ⟨?_, ?_, ?_, fun _ => rfl⟩
        · constructor
          · intro h
            exact absurd h (by simp)
          · rintro (h | ⟨-, hsub⟩)
            · exact Option.noConfusion h
            · exact absurd hc4 ((subset_singleton_conds _ _).mp hsub).2
        · intro _ hsub
          exact absurd hc4 ((subset_singleton_conds _ _).mp hsub).2
        · intro hs
          exact Option.noConfusion hs
      · rw [if_neg hc4]
        refine ⟨?_, fun _ _ => rfl, ?_, ?_⟩
        · constructor
          · intro _
            exact Or.inr ⟨rfl, (subset_singleton_conds _ _).mpr ⟨hc3, hc4⟩⟩
          · intro _
            rfl
        · intro hs
          exact Option.noConfusion hs
        · intro h
          exact absurd rfl h

/-! ### Decomposition lemmas for the server handlers -/

theorem ensureTxn_mp (kv : KVService) (t : Nat) : (ensureTxn kv t).mp = kv.mp := by
  unfold ensureTxn
  split <;> rfl

theorem ensureTxn_locks (kv : KVService) (t : Nat) : (ensureTxn kv t).locks = kv.locks := by
  unfold ensureTxn
  split <;> rfl

theorem ensureTxn_stats (kv : KVService) (t : Nat) : (ensureTxn kv t).stats = kv.stats := by
  unfold ensureTxn
  split <;> rfl

theorem ensureTxn_transactions_self (kv : KVService) (t : Nat) :
    (ensureTxn kv t).transactions t = some ((kv.transactions t).getD []) := by
  unfold ensureTxn
  cases ho : kv.transactions t with
  | none => simp [ho, upd_self]
  | some ops => simp [ho]

theorem acquireReadLock_unfold (kv : KVService) (key : String) (t : Nat) :
    kv.acquireReadLock key t
      = ({ kv with locks := upd kv.locks key (some (acquireReadLockInfo ((kv.locks key).getD NewLockInfo) t).1) },
         (acquireReadLockInfo ((kv.locks key).getD NewLockInfo) t).2) := rfl

theorem acquireWriteLock_unfold (kv : KVService) (key : String) (t : Nat) :
    kv.acquireWriteLock key t
      = ({ kv with locks := upd kv.locks key (some (acquireWriteLockInfo ((kv.locks key).getD NewLockInfo) t).1) },
         (acquireWriteLockInfo ((kv.locks key).getD NewLockInfo) t).2) := rfl

theorem opKeys_ensureTxn (kv : KVService) (t : Nat) :
    opKeys (ensureTxn kv t) t = opKeys kv t := by
  unfold opKeys
  rw [ensureTxn_transactions_self]
  rfl

/-- After storing back the (unchanged on conflict, or pre-existing) lock value
of the requested key, the footprint hypothesis transfers. -/
theorem upd_getD_footprint (kv : KVService) (key k : String) (t : Nat)
    (hk : holdsLock (kv.locks k) t → k ∈ opKeys kv t) :
    holdsLock (upd kv.locks key (some ((kv.locks key).getD NewLockInfo)) k) t →
      k ∈ opKeys kv t := by
  intro h
  by_cases hkk : k = key
  · subst hkk
    rw [upd_self] at h
    cases ho : kv.locks k with
    | some l0 =>
      apply hk
      rw [ho] at h ⊢
      simpa using h
    | none =>
      rw [ho] at h
      obtain ⟨l, hl, hmem⟩ := h
      rw [Option.some.injEq] at hl
      subst hl
      rcases hmem with hmem | hmem
      · simp [NewLockInfo] at hmem
      · simp [NewLockInfo] at hmem
  · rw [upd_other kv.locks key _ hkk] at h
    exact hk h

theorem serverGet_err (kv : KVService) (rq : GetRequest) :
    (serverGet kv rq).err
      = (acquireReadLockInfo ((kv.locks rq.Key).getD NewLockInfo) rq.Txid).2 := by
  simp only [serverGet, KVService.acquireReadLock]
  rw [ensureTxn_locks]
  cases (acquireReadLockInfo ((kv.locks rq.Key).getD NewLockInfo) rq.Txid).2 <;> rfl

theorem serverGet_conflict (kv : KVService) (rq : GetRequest) (e : String)
    (he : (serverGet kv rq).err = some e) :
    e = "Cannot acquire Read Lock, key is currently write locked" ∧
    (serverGet kv rq).kv.transactions rq.Txid = none ∧
    (serverGet kv rq).kv.stats.aborts = kv.stats.aborts + 1 ∧
    (∀ k, (holdsLock (kv.locks k) rq.Txid → k ∈ opKeys kv rq.Txid) →
       ¬ holdsLock ((serverGet kv rq).kv.locks k) rq.Txid) := by
  rw [serverGet_err] at he
  obtain ⟨hmsg, hsame, hw1, hw2⟩ := acquireReadLockInfo_err _ _ _ he
  refine ⟨hmsg, ?_, ?_, ?_⟩
  · simp only [serverGet, KVService.acquireReadLock]
    rw [ensureTxn_locks, he]
    exact releaseLocks_transactions _ rq.Txid
  · simp only [serverGet, KVService.acquireReadLock]
    rw [ensureTxn_locks, he]
    rw [releaseLocks_stats, ensureTxn_stats]
  · intro k hk
    simp only [serverGet, KVService.acquireReadLock]
    rw [ensureTxn_locks, he]
    apply releaseLocks_not_holds
    intro hh
    have hh' : holdsLock
        (upd kv.locks rq.Key
          (some (acquireReadLockInfo ((kv.locks rq.Key).getD NewLockInfo) rq.Txid).1) k)
        rq.Txid := hh
    rw [hsame] at hh'
    have hres := upd_getD_footprint kv rq.Key k rq.Txid hk hh'
    show k ∈ opKeys (ensureTxn kv rq.Txid) rq.Txid
    rw [opKeys_ensureTxn]
    exact hres

theorem serverGet_success (kv : KVService) (rq : GetRequest)
    (he : (serverGet kv rq).err = none) :
    (serverGet kv rq).value = (kv.mp rq.Key).getD "" ∧
    (serverGet kv rq).kv.transactions rq.Txid
      = some ((kv.transactions rq.Txid).getD []
          ++ [{ OpType := "GET", Key := rq.Key, Value := "" }]) ∧
    (serverGet kv rq).kv.stats.gets = kv.stats.gets + 1 ∧
    (serverGet kv rq).kv.stats.aborts = kv.stats.aborts := by
  rw [serverGet_err] at he
  refine ⟨?_, ?_, ?_, ?_⟩
  · simp only [serverGet, KVService.acquireReadLock]
    rw [ensureTxn_locks, he]
    rw [ensureTxn_mp]
  · simp only [serverGet, KVService.acquireReadLock]
    rw [ensureTxn_locks, he]
    show upd (ensureTxn kv rq.Txid).transactions rq.Txid
        (some (((ensureTxn kv rq.Txid).transactions rq.Txid).getD []
          ++ [{ OpType := "GET", Key := rq.Key, Value := "" }])) rq.Txid
      = some ((kv.transactions rq.Txid).getD []
          ++ [{ OpType := "GET", Key := rq.Key, Value := "" }])
    rw [upd_self, ensureTxn_transactions_self]
    rfl
  · simp only [serverGet, KVService.acquireReadLock]
    rw [ensureTxn_locks, he]
    rw [ensureTxn_stats]
  · simp only [serverGet, KVService.acquireReadLock]
    rw [ensureTxn_locks, he]
    rw [ensureTxn_stats]

theorem serverGet_mp (kv : KVService) (rq : GetRequest) (k : String) :
    (serverGet kv rq).kv.mp k = kv.mp k := by
  simp only [serverGet, KVService.acquireReadLock]
  rw [ensureTxn_locks]
  cases (acquireReadLockInfo ((kv.locks rq.Key).getD NewLockInfo) rq.Txid).2 with
  | some e =>
    rw [releaseLocks_mp, ensureTxn_mp]
  | none =>
    rw [ensureTxn_mp]

theorem serverPut_err (kv : KVService) (rq : PutRequest) :
    (serverPut kv rq).err
      = (acquireWriteLockInfo ((kv.locks rq.Key).getD NewLockInfo) rq.Txid).2 := by
  simp only [serverPut, KVService.acquireWriteLock]
  rw [ensureTxn_locks]
  cases (acquireWriteLockInfo ((kv.locks rq.Key).getD NewLockInfo) rq.Txid).2 <;> rfl

theorem serverPut_conflict (kv : KVService) (rq : PutRequest) (e : String)
    (he : (serverPut kv rq).err = some e) :
    (serverPut kv rq).kv.transactions rq.Txid = none ∧
    (serverPut kv rq).kv.stats.aborts = kv.stats.aborts + 1 ∧
    (∀ k, (holdsLock (kv.locks k) rq.Txid → k ∈ opKeys kv rq.Txid) →
       ¬ holdsLock ((serverPut kv rq).kv.locks k) rq.Txid) := by
  rw [serverPut_err] at he
  have hsame : (acquireWriteLockInfo ((kv.locks rq.Key).getD NewLockInfo) rq.Txid).1
      = (kv.locks rq.Key).getD NewLockInfo :=
    (acquireWriteLockInfo_spec _ _).2.2.2 (by rw [he]; exact fun h => Option.noConfusion h)
  refine ⟨?_, ?_, ?_⟩
  · simp only [serverPut, KVService.acquireWriteLock]
    rw [ensureTxn_locks, he]
    exact releaseLocks_transactions _ rq.Txid
  · simp only [serverPut, KVService.acquireWriteLock]
    rw [ensureTxn_locks, he]
    rw [releaseLocks_stats, ensureTxn_stats]
  · intro k hk
    simp only [serverPut, KVService.acquireWriteLock]
    rw [ensureTxn_locks, he]
    apply releaseLocks_not_holds
    intro hh
    have hh' : holdsLock
        (upd kv.locks rq.Key
          (some (acquireWriteLockInfo ((kv.locks rq.Key).getD NewLockInfo) rq.Txid).1) k)
        rq.Txid := hh
    rw [hsame] at hh'
    have hres := upd_getD_footprint kv rq.Key k rq.Txid hk hh'
    show k ∈ opKeys (ensureTxn kv rq.Txid) rq.Txid
    rw [opKeys_ensureTxn]
    exact hres

theorem serverPut_success (kv : KVService) (rq : PutRequest)
    (he : (serverPut kv rq).err = none) :
    (serverPut kv rq).kv.transactions rq.Txid
      = some ((kv.transactions rq.Txid).getD []
          ++ [{ OpType := "PUT", Key := rq.Key, Value := rq.Value }]) ∧
    (serverPut kv rq).kv.stats.puts = kv.stats.puts + 1 := by
  rw [serverPut_err] at he
  refine ⟨?_, ?_⟩
  · simp only [serverPut, KVService.acquireWriteLock]
    rw [ensureTxn_locks, he]
    show upd (ensureTxn kv rq.Txid).transactions rq.Txid
        (some (((ensureTxn kv rq.Txid).transactions rq.Txid).getD []
          ++ [{ OpType := "PUT", Key := rq.Key, Value := rq.Value }])) rq.Txid
      = some ((kv.transactions rq.Txid).getD []
          ++ [{ OpType := "PUT", Key := rq.Key, Value := rq.Value }])
    rw [upd_self, ensureTxn_transactions_self]
    rfl
  · simp only [serverPut, KVService.acquireWriteLock]
    rw [ensureTxn_locks, he]
    rw [ensureTxn_stats]

theorem serverPut_mp (kv : KVService) (rq : PutRequest) (k : String) :
    (serverPut kv rq).kv.mp k = kv.mp k := by
  simp only [serverPut, KVService.acquireWriteLock]
  rw [ensureTxn_locks]
  cases (acquireWriteLockInfo ((kv.locks rq.Key).getD NewLockInfo) rq.Txid).2 with
  | some e =>
    rw [releaseLocks_mp, ensureTxn_mp]
  | none =>
    rw [ensureTxn_mp]

theorem serverCommit_decomp (kv : KVService) (rq : CommitRequest) :
    ∃ kvmid : KVService,
      serverCommit kv rq = (kvmid.releaseLocks rq.Txid, none) ∧
      kvmid.locks = kv.locks ∧
      kvmid.transactions = kv.transactions ∧
      kvmid.mp = applyPuts kv.mp ((kv.transactions rq.Txid).getD []) := by
  cases ht : kv.transactions rq.Txid with
  | none =>
    refine ⟨kv, ?_, rfl, rfl, rfl⟩
    simp only [serverCommit, ht]
  | some ops =>
    cases hl : rq.Lead with
    | true =>
      refine ⟨{ { kv with mp := applyPuts kv.mp ops } with
          stats := { { kv with mp := applyPuts kv.mp ops }.stats with
            commits := { kv with mp := applyPuts kv.mp ops }.stats.commits + 1 } },
        ?_, rfl, rfl, rfl⟩
      simp only [serverCommit, ht, hl, if_pos]
    | false =>
      refine ⟨{ kv with mp := applyPuts kv.mp ops }, ?_, rfl, rfl, rfl⟩
      simp only [serverCommit, ht, hl]
      rfl

theorem serverAbort_decomp (kv : KVService) (rq : AbortRequest) :
    (serverAbort kv rq).1.transactions rq.Txid = none ∧
    (∀ k, (serverAbort kv rq).1.mp k = kv.mp k) ∧
    (serverAbort kv rq).2 = none ∧
    (serverAbort kv rq).1.stats.aborts = kv.stats.aborts + 1 := by
  refine ⟨?_, ?_, rfl, ?_⟩
  · exact releaseLocks_transactions kv rq.Txid
  · intro k
    show (kv.releaseLocks rq.Txid).mp k = kv.mp k
    rw [releaseLocks_mp]
  · show (kv.releaseLocks rq.Txid).stats.aborts + 1 = kv.stats.aborts + 1
    rw [releaseLocks_stats]

/-! ### Claim theorems -/

/-- Claim C1: every lock-manager operation (`acquireReadLock`,
`acquireWriteLock`, `releaseLocks`) preserves the per-key lock invariant: for
every key, at most one transaction holds the write lock (structurally, since
`writeHolder` is a single optional value), and whenever the write lock is held
by `w`, the read-holder set contains no TxId other than `w`, and no TxId is
simultaneously a reader and the writer. -/
theorem claim_c1_lock_ops_preserve_invariant (kv : KVService) (key : String) (txid : Nat)
    (h : KVLockInv kv) :
    KVLockInv (kv.acquireReadLock key txid).1 ∧
    KVLockInv (kv.acquireWriteLock key txid).1 ∧
    KVLockInv (kv.releaseLocks txid) := by
  have hbase : LockInv ((kv.locks key).getD NewLockInfo) := by
    cases ho : kv.locks key with
    | some l0 => exact h key l0 ho
    | none => exact LockInv_new
  refine ⟨?_, ?_, ?_⟩
  · rw [acquireReadLock_unfold]
    intro k l hl
    have hl' : upd kv.locks key
        (some (acquireReadLockInfo ((kv.locks key).getD NewLockInfo) txid).1) k = some l := hl
    by_cases hk : k = key
    · subst hk
      rw [upd_self, Option.some.injEq] at hl'
      subst hl'
      exact acquireReadLockInfo_inv _ txid hbase
    · rw [upd_other _ _ _ hk] at hl'
      exact h k l hl'
  · rw [acquireWriteLock_unfold]
    intro k l hl
    have hl' : upd kv.locks key
        (some (acquireWriteLockInfo ((kv.locks key).getD NewLockInfo) txid).1) k = some l := hl
    by_cases hk : k = key
    · subst hk
      rw [upd_self, Option.some.injEq] at hl'
      subst hl'
      exact acquireWriteLockInfo_inv _ txid hbase
    · rw [upd_other _ _ _ hk] at hl'
      exact h k l hl'
  · unfold KVService.releaseLocks
    cases ht : kv.transactions txid with
    | none =>
      intro k l hl
      exact h k l hl
    | some ops =>
      intro k l hl
      have hl' : releaseLocksLoop kv.locks txid ops k = some l := hl
      exact releaseLocksLoop_inv txid ops kv.locks h k l hl'

theorem claim_c1_witness :
    KVLockInv kvReadLocked ∧ KVLockInv (kvReadLocked.acquireWriteLock "k" 5).1 := by
  have h0 : KVLockInv kvReadLocked := by
    intro key l hl
    by_cases hk : key = "k"
    · subst hk
      simp [kvReadLocked, kv0] at hl
      subst hl
      intro w hw
      exact absurd hw (by simp)
    · simp [kvReadLocked, kv0, hk] at hl
  exact ⟨h0, (claim_c1_lock_ops_preserve_invariant kvReadLocked "k" 5 h0).2.1⟩

/-- Claim C2: for every key and txid, `acquireWriteLock` succeeds iff the txid
already holds the write lock or no one holds it and the read holders are a
subset of the singleton txid; the upgrade case sets the writer and removes the
txid from the readers; every other case is a conflict that leaves the lock
state unchanged. -/
theorem claim_c2_acquireWriteLock_cases (kv : KVService) (key : String) (txid : Nat)
    (l : LockInfo) (hl : (kv.locks key).getD NewLockInfo = l) :
    ((kv.acquireWriteLock key txid).2 = none ↔
      l.writeHolder = some txid ∨ (l.writeHolder = none ∧ l.readHolders ⊆ {txid})) ∧
    (l.writeHolder = none → l.readHolders ⊆ {txid} →
      (kv.acquireWriteLock key txid).1.locks key
        = some ⟨l.readHolders.erase txid, some txid⟩) ∧
    (l.writeHolder = some txid →
      (kv.acquireWriteLock key txid).1.locks key = some l) ∧
    ((kv.acquireWriteLock key txid).2 ≠ none →
      (kv.acquireWriteLock key txid).1.locks key = some l) ∧
    (∀ k, k ≠ key → (kv.acquireWriteLock key txid).1.locks k = kv.locks k) := by
  subst hl
  obtain ⟨hiff, hupg, hself, hconf⟩ :=
    acquireWriteLockInfo_spec ((kv.locks key).getD NewLockInfo) txid
  rw [acquireWriteLock_unfold]
  refine ⟨hiff, ?_, ?_, ?_, ?_⟩
  · intro h1 h2
    show upd kv.locks key
        (some (acquireWriteLockInfo ((kv.locks key).getD NewLockInfo) txid).1) key
      = some ⟨((kv.locks key).getD NewLockInfo).readHolders.erase txid, some txid⟩
    rw [upd_self, hupg h1 h2]
  · intro h1
    show upd kv.locks key
        (some (acquireWriteLockInfo ((kv.locks key).getD NewLockInfo) txid).1) key
      = some ((kv.locks key).getD NewLockInfo)
    rw [upd_self, hself h1]
  · intro h1
    show upd kv.locks key
        (some (acquireWriteLockInfo ((kv.locks key).getD NewLockInfo) txid).1) key
      = some ((kv.locks key).getD NewLockInfo)
    rw [upd_self, hconf h1]
  · intro k hk
    show upd kv.locks key
        (some (acquireWriteLockInfo ((kv.locks key).getD NewLockInfo) txid).1) k
      = kv.locks k
    exact upd_other _ _ _ hk

theorem claim_c2_witness :
    (kvReadLocked.locks "k").getD NewLockInfo = ⟨{5}, none⟩ ∧
    (kvReadLocked.acquireWriteLock "k" 5).2 = none ∧
    (kvReadLocked.acquireWriteLock "k" 5).1.locks "k" = some ⟨∅, some 5⟩ := by
  have hc := claim_c2_acquireWriteLock_cases kvReadLocked "k" 5 ⟨{5}, none⟩ rfl
  refine ⟨rfl, hc.1.mpr (Or.inr ⟨rfl, by decide⟩), ?_⟩
  have := hc.2.1 rfl (by decide)
  rw [this]
  decide

/-- Claim C3: server `Commit` applies exactly the PUT operations of the
transaction's log in insertion order (the last PUT to a key wins), releases
all of the transaction's locks (its held locks are confined to the keys of
its log, which the `hfoot` hypothesis records), deletes its transaction-table
entry, and always returns success; on an unknown txid the store is unchanged
and success is still returned. -/
theorem claim_c3_commit (kv : KVService) (txid : Nat) (lead : Bool)
    (hfoot : ∀ k, holdsLock (kv.locks k) txid → k ∈ opKeys kv txid) :
    (∀ k, (serverCommit kv ⟨txid, lead⟩).1.mp k
        = (lastPut ((kv.transactions txid).getD []) k).elim (kv.mp k) some) ∧
    (∀ k, ¬ holdsLock ((serverCommit kv ⟨txid, lead⟩).1.locks k) txid) ∧
    (serverCommit kv ⟨txid, lead⟩).1.transactions txid = none ∧
    (serverCommit kv ⟨txid, lead⟩).2 = none ∧
    (kv.transactions txid = none → ∀ k, (serverCommit kv ⟨txid, lead⟩).1.mp k = kv.mp k) := by
  obtain ⟨kvmid, heq, hlocks, htr, hmp⟩ := serverCommit_decomp kv ⟨txid, lead⟩
  rw [heq]
  have hopk : opKeys kvmid txid = opKeys kv txid := by
    unfold opKeys
    rw [htr]
  refine ⟨?_, ?_, ?_, rfl, ?_⟩
  · intro k
    show (kvmid.releaseLocks txid).mp k = _
    rw [releaseLocks_mp, hmp]
    exact applyPuts_eq k _ kv.mp
  · intro k
    apply releaseLocks_not_holds
    rw [hlocks, hopk]
    exact hfoot k
  · exact releaseLocks_transactions kvmid txid
  · intro ht k
    show (kvmid.releaseLocks txid).mp k = kv.mp k
    rw [releaseLocks_mp, hmp, ht]
    rfl

theorem claim_c3_witness :
    (∀ k, holdsLock (kvLogged.locks k) 7 → k ∈ opKeys kvLogged 7) ∧
    (serverCommit kvLogged ⟨7, true⟩).1.mp "a" = some "2" ∧
    (serverCommit kvLogged ⟨7, true⟩).1.transactions 7 = none ∧
    (serverCommit kvLogged ⟨7, true⟩).2 = none := by
  have hfoot : ∀ k, holdsLock (kvLogged.locks k) 7 → k ∈ opKeys kvLogged 7 := by
    intro k hcon
    obtain ⟨l, hl, -⟩ := hcon
    simp [kvLogged, kv0] at hl
  obtain ⟨h1, h2, h3, h4, h5⟩ := claim_c3_commit kvLogged 7 true hfoot
  refine ⟨hfoot, ?_, h3, h4⟩
  rw [h1 "a"]
  rfl

/-- Claim C4: the committed store is mutated only by `Commit`: `Put` (whether
it succeeds or conflicts) leaves `mp` unchanged and, on success, only appends
the PUT to the transaction's operation log; `Abort` leaves `mp` unchanged,
releases locks and discards the transaction's log; `Get` also leaves `mp`
unchanged, so no uncommitted or aborted write is ever visible in the store. -/
theorem claim_c4_store_only_commit (kv : KVService) (pr : PutRequest) (ar : AbortRequest)
    (gr : GetRequest) :
    (∀ k, (serverPut kv pr).kv.mp k = kv.mp k) ∧
    ((serverPut kv pr).err = none →
      (serverPut kv pr).kv.transactions pr.Txid
        = some ((kv.transactions pr.Txid).getD []
            ++ [{ OpType := "PUT", Key := pr.Key, Value := pr.Value }])) ∧
    (∀ k, (serverAbort kv ar).1.mp k = kv.mp k) ∧
    ((serverAbort kv ar).1.transactions ar.Txid = none) ∧
    (∀ k, (serverGet kv gr).kv.mp k = kv.mp k) := by
  obtain ⟨ha1, ha2, ha3, ha4⟩ := serverAbort_decomp kv ar
  refine ⟨serverPut_mp kv pr, ?_, ha2, ha1, serverGet_mp kv gr⟩
  intro he
  exact (serverPut_success kv pr he).1

theorem claim_c4_witness :
    (serverPut kv0 ⟨"k", "v", 3⟩).err = none ∧
    (serverPut kv0 ⟨"k", "v", 3⟩).kv.mp "k" = none ∧
    (serverPut kv0 ⟨"k", "v", 3⟩).kv.transactions 3
      = some [{ OpType := "PUT", Key := "k", Value := "v" }] := by
  have he : (serverPut kv0 ⟨"k", "v", 3⟩).err = none := by rfl
  obtain ⟨h1, h2, -, -, -⟩ := claim_c4_store_only_commit kv0 ⟨"k", "v", 3⟩ ⟨3⟩ ⟨"k", 3⟩
  exact ⟨he, h1 "k", h2 he⟩

/-- Claim C5: server `Get` on a lock conflict returns an error containing
"Cannot acquire" after releasing every lock the txid holds (its held locks
being confined to its logged keys, per `hfoot`), deleting its transaction
entry and incrementing the aborts counter; on success it appends a GET record
and returns the committed value, the empty string when the key is absent
(which is not an error: the error is determined solely by the lock state). -/
theorem claim_c5_get_contract (kv : KVService) (rq : GetRequest)
    (hfoot : ∀ k, holdsLock (kv.locks k) rq.Txid → k ∈ opKeys kv rq.Txid) :
    (∀ e, (serverGet kv rq).err = some e →
      strContains e "Cannot acquire" = true ∧
      (∀ k, ¬ holdsLock ((serverGet kv rq).kv.locks k) rq.Txid) ∧
      (serverGet kv rq).kv.transactions rq.Txid = none ∧
      (serverGet kv rq).kv.stats.aborts = kv.stats.aborts + 1) ∧
    ((serverGet kv rq).err = none →
      (serverGet kv rq).value = (kv.mp rq.Key).getD "" ∧
      (serverGet kv rq).kv.transactions rq.Txid
        = some ((kv.transactions rq.Txid).getD []
            ++ [{ OpType := "GET", Key := rq.Key, Value := "" }])) ∧
    ((serverGet kv rq).err = none ↔
      ¬(((kv.locks rq.Key).getD NewLockInfo).writeHolder ≠ none ∧
        ((kv.locks rq.Key).getD NewLockInfo).writeHolder ≠ some rq.Txid)) := by
  refine ⟨?_, ?_, ?_⟩
  · intro e he
    obtain ⟨hmsg, htr, hab, hlk⟩ := serverGet_conflict kv rq e he
    subst hmsg
    refine ⟨by decide, ?_, htr, hab⟩
    intro k
    exact hlk k (hfoot k)
  · intro he
    obtain ⟨hv, htr, -, -⟩ := serverGet_success kv rq he
    exact ⟨hv, htr⟩
  · rw [serverGet_err]
    exact acquireReadLockInfo_ok_iff _ _

theorem claim_c5_witness :
    (∀ k, holdsLock (kvWriteLocked.locks k) 1 → k ∈ opKeys kvWriteLocked 1) ∧
    (serverGet kvWriteLocked ⟨"k", 1⟩).err
      = some "Cannot acquire Read Lock, key is currently write locked" ∧
    (serverGet kvWriteLocked ⟨"k", 1⟩).kv.transactions 1 = none ∧
    (serverGet kvWriteLocked ⟨"k", 1⟩).kv.stats.aborts = 1 := by
  have hfoot : ∀ k, holdsLock (kvWriteLocked.locks k) 1 → k ∈ opKeys kvWriteLocked 1 := by
    intro k hcon
    obtain ⟨l, hl, hmem⟩ := hcon
    by_cases hk : k = "k"
    · subst hk
      simp [kvWriteLocked, kv0] at hl
      subst hl
      simp at hmem
    · simp [kvWriteLocked, kv0, hk] at hl
  have he : (serverGet kvWriteLocked ⟨"k", 1⟩).err
      = some "Cannot acquire Read Lock, key is currently write locked" := by rfl
  obtain ⟨h1, -, -⟩ := claim_c5_get_contract kvWriteLocked ⟨"k", 1⟩ hfoot
  obtain ⟨-, -, htr, hab⟩ := h1 _ he
  exact ⟨hfoot, he, htr, by rw [hab]; rfl⟩

/-- Counterexample to claim C6 as stated: the claim classifies as fatal (with
Abort sent to the participants) every RPC error that neither contains
"Cannot acquire" nor STARTS WITH "Abort:"; but on `"x Abort: y"` — which
merely contains "Abort:" in the middle — the client code
(`strings.Contains`) returns a retryable lock-conflict outcome and sends no
Abort. -/
theorem claim_c6_counterexample :
    strContains "x Abort: y" "Cannot acquire" = false ∧
    "Abort:".toList.isPrefixOf "x Abort: y".toList = false ∧
    (txn1.clientGet "k" 1 (some "x Abort: y", "")).result
      = .lockConflict ("lock conflict: " ++ "x Abort: y") ∧
    (txn1.clientGet "k" 1 (some "x Abort: y", "")).abortedTo = ∅ := by
  refine ⟨by decide, by decide, by decide, by decide⟩

/-- Claim C6 (amended): the client classifies an RPC error by substring
CONTAINMENT for both markers: an error whose message contains
"Cannot acquire" or contains "Abort:" yields a retryable lock-conflict result
and no Abort RPC; any other error causes Abort to be sent to all participants
and a fatal "server-side error raised" result. This holds for both `Txn.Get`
and `Txn.Put`. -/
theorem claim_c6_error_classification (txn : Txn) (key value : String) (srv : Nat)
    (e : String) (hid : txn.id ≠ none) (hcache : txn.writeSet key = none) :
    ((strContains e "Cannot acquire" || strContains e "Abort:") = true →
      (txn.clientGet key srv (some e, "")).result = .lockConflict ("lock conflict: " ++ e) ∧
      (txn.clientGet key srv (some e, "")).abortedTo = ∅ ∧
      (txn.clientPut key value srv (some e)).result = .lockConflict ("lock conflict: " ++ e) ∧
      (txn.clientPut key value srv (some e)).abortedTo = ∅) ∧
    ((strContains e "Cannot acquire" || strContains e "Abort:") = false →
      (txn.clientGet key srv (some e, "")).result = .fatal ("server-side error raised: " ++ e) ∧
      (txn.clientGet key srv (some e, "")).abortedTo = insert srv txn.usedServers ∧
      (txn.clientPut key value srv (some e)).result = .fatal ("server-side error raised: " ++ e) ∧
      (txn.clientPut key value srv (some e)).abortedTo = insert srv txn.usedServers) := by
  cases hi : txn.id with
  | none => exact absurd hi hid
  | some i =>
    constructor
    · intro hb
      refine ⟨?_, ?_, ?_, ?_⟩ <;> simp [Txn.clientGet, Txn.clientPut, hi, hcache, hb]
    · intro hb
      refine ⟨?_, ?_, ?_, ?_⟩ <;> simp [Txn.clientGet, Txn.clientPut, hi, hcache, hb]

theorem claim_c6_witness :
    txn1.id ≠ none ∧ txn1.writeSet "k" = none ∧
    (strContains "Abort: retry" "Cannot acquire" || strContains "Abort: retry" "Abort:") = true ∧
    (txn1.clientGet "k" 1 (some "Abort: retry", "")).result
      = .lockConflict ("lock conflict: " ++ "Abort: retry") ∧
    (strContains "rpc timeout" "Cannot acquire" || strContains "rpc timeout" "Abort:") = false ∧
    (txn1.clientPut "k" "v" 1 (some "rpc timeout")).result
      = .fatal ("server-side error raised: " ++ "rpc timeout") ∧
    (txn1.clientPut "k" "v" 1 (some "rpc timeout")).abortedTo = {1} := by
  have hid : txn1.id ≠ none := by simp [txn1]
  have hcache : txn1.writeSet "k" = none := rfl
  have h1 := (claim_c6_error_classification txn1 "k" "v" 1 "Abort: retry" hid hcache).1 (by decide)
  have h2 := (claim_c6_error_classification txn1 "k" "v" 1 "rpc timeout" hid hcache).2 (by decide)
  refine ⟨hid, hcache, by decide, h1.1, by decide, h2.2.2.1, ?_⟩
  rw [h2.2.2.2]
  decide

/-- Claim C7: within one transaction, after a successful Put(key, value) —
value may be the empty string — a subsequent Get(key) is answered from the
client writeSet by an existence check (the Option match, not an empty-string
comparison), returns exactly that value, and issues no server RPC; the
writeSet is updated only when the server accepted the Put, so a failed Put
leaves it unchanged. -/
theorem claim_c7_read_your_writes (txn : Txn) (key value : String) (srv srv2 : Nat)
    (rpc2 : Option String × String) (hid : txn.id ≠ none) :
    (((txn.clientPut key value srv none).txn.clientGet key srv2 rpc2).result = .ok value ∧
     ((txn.clientPut key value srv none).txn.clientGet key srv2 rpc2).rpcIssued = false) ∧
    (∀ e k, (txn.clientPut key value srv (some e)).txn.writeSet k = txn.writeSet k) := by
  cases hi : txn.id with
  | none => exact absurd hi hid
  | some i =>
    refine ⟨⟨?_, ?_⟩, ?_⟩
    · simp [Txn.clientPut, Txn.clientGet, hi, upd_self]
    · simp [Txn.clientPut, Txn.clientGet, hi, upd_self]
    · intro e k
      simp only [Txn.clientPut, hi]
      split <;> rfl

theorem claim_c7_witness :
    txn1.id ≠ none ∧
    ((txn1.clientPut "k" "" 1 none).txn.clientGet "k" 2 (some "ignored", "zz")).result
      = .ok "" ∧
    ((txn1.clientPut "k" "" 1 none).txn.clientGet "k" 2 (some "ignored", "zz")).rpcIssued
      = false ∧
    (txn1.clientPut "k" "" 1 (some "Cannot acquire Write Lock")).txn.writeSet "k" = none := by
  have hid : txn1.id ≠ none := by simp [txn1]
  obtain ⟨⟨h1, h2⟩, h3⟩ :=
    claim_c7_read_your_writes txn1 "k" "" 1 2 (some "ignored", "zz") hid
  exact ⟨hid, h1, h2, by rw [h3 "Cannot acquire Write Lock" "k"]; rfl⟩

/-- Counterexample to claim C8 as stated: `Txn.Begin` stores the raw value
drawn from `randGen.Uint64()` without excluding 0, so the call in which the
generator returns 0 produces a transaction whose TxId is 0. -/
theorem claim_c8_counterexample : (Txn.Begin txn0 [] 0).id = some 0 := rfl

/-- Claim C8 (amended): every call to Begin sets the session id (to the raw
random value, which may be 0 — in this client "no active transaction" is the
nil id pointer, not the value 0) and makes the writeSet and the participant
set empty. -/
theorem claim_c8_begin_amended (txn : Txn) (servers : List Nat) (r : Nat) :
    (txn.Begin servers r).id = some r ∧
    (txn.Begin servers r).usedServers = ∅ ∧
    (∀ k, (txn.Begin servers r).writeSet k = none) ∧
    (txn.Begin servers r).allServers = servers :=
  ⟨rfl, rfl, fun _ => rfl, rfl⟩

/-- Counterexample to claim C9 as stated: the claim puts the ~2 s cap on both
retry loops, but `checkTotalBalance` computes `50·2^retry` ms with no cap: at
retry 6 it sleeps 3200 ms (plus jitter) where the claimed formula gives
2000 ms. -/
theorem claim_c9_counterexample :
    balanceSleepMs 6 0 = 3200 ∧ min (50 * 2 ^ 6) 2000 + 0 = 2000 ∧ (3200 : Nat) ≠ 2000 := by
  refine ⟨by decide, by decide, by decide⟩

/-- Claim C9 (amended): the transfer loop sleeps min(20·2^r, 2000) ms plus
the drawn jitter (the code draws it uniformly from [0, backoff/2)); the
balance-check loop sleeps 50·2^r ms plus jitter, with no cap. -/
theorem claim_c9_backoff_amended (r j j2 : Nat)
    (hj : j < transferBackoffMs r / 2) (hj2 : j2 < balanceBackoffMs r / 2) :
    transferBackoffMs r = min (20 * 2 ^ r) 2000 ∧
    transferSleepMs r j = min (20 * 2 ^ r) 2000 + j ∧
    transferSleepMs r j < 2 * transferBackoffMs r ∧
    balanceBackoffMs r = 50 * 2 ^ r ∧
    balanceSleepMs r j2 = 50 * 2 ^ r + j2 ∧
    balanceSleepMs r j2 < 2 * balanceBackoffMs r := by
  have h1 : transferBackoffMs r = min (20 * 2 ^ r) 2000 := by
    show (if 20 * 2 ^ r > 2000 then 2000 else 20 * 2 ^ r) = min (20 * 2 ^ r) 2000
    split <;> omega
  have h2 : transferSleepMs r j = transferBackoffMs r + j := rfl
  have h4 : balanceSleepMs r j2 = balanceBackoffMs r + j2 := rfl
  refine ⟨h1, by rw [transferSleepMs, h1], by rw [h2]; omega, rfl, rfl, by rw [h4]; omega⟩

theorem claim_c9_witness :
    600 < transferBackoffMs 6 / 2 ∧ 1500 < balanceBackoffMs 6 / 2 ∧
    transferSleepMs 6 600 = 1880 ∧ balanceSleepMs 6 1500 = 4700 := by
  obtain ⟨-, h2, -, -, h4, -⟩ := claim_c9_backoff_amended 6 600 1500 (by decide) (by decide)
  refine ⟨by decide, by decide, ?_, ?_⟩
  · rw [h2]
    decide
  · rw [h4]
    decide

/-- Claim C10: after `Get` or `Put` returns a lock-conflict error for a txid,
the server retains no state for that transaction — the transaction-table
entry is deleted and every lock it held (its held locks being confined to its
logged keys, per the footprint hypotheses) is released — and a subsequent
successful `Get` or `Put` with the same txid starts a fresh server-side
transaction whose operation log contains only the new operation. -/
theorem claim_c10_conflict_clears_state (kv kv2 : KVService) (gr : GetRequest)
    (pr : PutRequest)
    (hfg : ∀ k, holdsLock (kv.locks k) gr.Txid → k ∈ opKeys kv gr.Txid)
    (hfp : ∀ k, holdsLock (kv.locks k) pr.Txid → k ∈ opKeys kv pr.Txid) :
    (∀ e, (serverGet kv gr).err = some e →
      (serverGet kv gr).kv.transactions gr.Txid = none ∧
      (∀ k, ¬ holdsLock ((serverGet kv gr).kv.locks k) gr.Txid)) ∧
    (∀ e, (serverPut kv pr).err = some e →
      (serverPut kv pr).kv.transactions pr.Txid = none ∧
      (∀ k, ¬ holdsLock ((serverPut kv pr).kv.locks k) pr.Txid)) ∧
    (kv2.transactions gr.Txid = none → (serverGet kv2 gr).err = none →
      (serverGet kv2 gr).kv.transactions gr.Txid
        = some [{ OpType := "GET", Key := gr.Key, Value := "" }]) ∧
    (kv2.transactions pr.Txid = none → (serverPut kv2 pr).err = none →
      (serverPut kv2 pr).kv.transactions pr.Txid
        = some [{ OpType := "PUT", Key := pr.Key, Value := pr.Value }]) := by
  refine ⟨?_, ?_, ?_, ?_⟩
  · intro e he
    obtain ⟨-, htr, -, hlk⟩ := serverGet_conflict kv gr e he
    exact ⟨htr, fun k => hlk k (hfg k)⟩
  · intro e he
    obtain ⟨htr, -, hlk⟩ := serverPut_conflict kv pr e he
    exact ⟨htr, fun k => hlk k (hfp k)⟩
  · intro ht he
    have h := (serverGet_success kv2 gr he).2.1
    rw [ht] at h
    simpa using h
  · intro ht he
    have h := (serverPut_success kv2 pr he).1
    rw [ht] at h
    simpa using h

theorem claim_c10_witness :
    (serverGet kvWriteLocked ⟨"k", 1⟩).err ≠ none ∧
    (serverGet kvWriteLocked ⟨"k", 1⟩).kv.transactions 1 = none ∧
    kv0.transactions 3 = none ∧
    (serverPut kv0 ⟨"k", "v", 3⟩).kv.transactions 3
      = some [{ OpType := "PUT", Key := "k", Value := "v" }] := by
  have hfg : ∀ k, holdsLock (kvWriteLocked.locks k) 1 → k ∈ opKeys kvWriteLocked 1 := by
    intro k hcon
    obtain ⟨l, hl, hmem⟩ := hcon
    by_cases hk : k = "k"
    · subst hk
      simp [kvWriteLocked, kv0] at hl
      subst hl
      simp at hmem
    · simp [kvWriteLocked, kv0, hk] at hl
  have hfp : ∀ k, holdsLock (kvWriteLocked.locks k) 3 → k ∈ opKeys kvWriteLocked 3 := by
    intro k hcon
    obtain ⟨l, hl, hmem⟩ := hcon
    by_cases hk : k = "k"
    · subst hk
      simp [kvWriteLocked, kv0] at hl
      subst hl
      simp at hmem
    · simp [kvWriteLocked, kv0, hk] at hl
  have he : (serverGet kvWriteLocked ⟨"k", 1⟩).err
      = some "Cannot acquire Read Lock, key is currently write locked" := by rfl
  obtain ⟨hget, -, -, hput⟩ :=
    claim_c10_conflict_clears_state kvWriteLocked kv0 ⟨"k", 1⟩ ⟨"k", "v", 3⟩ hfg hfp
  refine ⟨by rw [he]; simp, (hget _ he).1, rfl, hput rfl (by rfl)⟩
